import Mathlib

/-!
Verification of the alexandria topology-generation core (`mymol.cpp`) of this
GROMACS fork.  The C++ pipeline derives bonded interaction lists, polarizable
shells, exclusion sets and force-field parameter tables for one molecule.  The
definitions below are a shallow embedding of the relevant routines:

* `detect_rings`        — the 8-level nested-loop ring detector;
* `is_linear`           — the geometric linearity classifier used by
                          `MyMol::MakeSpecialInteractions`;
* `generate_nbparam`    — the van-der-Waals combination rules;
* `do_init_mtop`        — topology-container initialisation and the distinct
                          atom-type count;
* `term_coeffs`         — the per-term coefficient assembly of `plist_to_mtop`;
* `get_force_constants` — string-free model of bonded parameter resolution;
* `GenerateTopologyStatus` — the status/fatal control flow of
                          `MyMol::GenerateTopology`;
* `addShellsAtoms` / `addShellsExcls` / `prune_excl`
                        — the shell-insertion step `MyMol::AddShells`.

Real-valued (`ℝ`) arithmetic stands in for C `double`/`real`; exact rational
(`ℚ`) arithmetic is used where only ring operations occur.  `Option` replaces
the `NOTSET`/pointer-success conventions of lookup routines, and C arrays are
Lean lists with `List.getD`/`List.set` giving the in-range access discipline.
-/

namespace Gromacs

set_option maxRecDepth 4000

/-- Function-type tags from the GROMACS `F_*` enumeration.  Only their
distinctness is relevant to the embedded routines. -/
def F_BONDS : Nat := 0

/-- Harmonic-angle function type tag. -/
def F_ANGLES : Nat := 1

/-- Lennard-Jones 1-4 pair function type tag. -/
def F_LJ14 : Nat := 2

/-- Lennard-Jones nonbonded function type tag. -/
def F_LJ : Nat := 3

/-- Combination-rule tags from the GROMACS `eCOMB_*` enumeration. -/
def eCOMB_GEOMETRIC : Nat := 1

/-- Arithmetic sigma/epsilon combination rule. -/
def eCOMB_ARITHMETIC : Nat := 2

/-- Geometric sigma/epsilon combination rule. -/
def eCOMB_GEOM_SIG_EPS : Nat := 3

/-- Constant `MAXFORCEPARAM` from `typedefs.h`: number of coefficient slots per term. -/
def MAXFORCEPARAM : Nat := 12

/-- The `NOTSET` sentinel (`typedefs.h`: `#define NOTSET -12345`) as it appears
in `real`-valued coefficient slots. -/
def NOTSET : ℚ := -12345

/-! ## Ring detection (`detect_rings`, mymol.cpp lines 445-616)

Bonds are unordered atom-index pairs.  For a bond `b` and an atom `x`,
the C code sets `a2 = NOTSET` unless `b` contains `x`, in which case `a2`
becomes the other endpoint; `bpartner` returns `none`/`some` instead. -/

/-- The partner of atom `x` in bond `b`, if `x` is an endpoint of `b`. -/
def bpartner (b : Nat × Nat) (x : Nat) : Option Nat :=
  if b.1 = x then some b.2 else if b.2 = x then some b.1 else none

/-- Chain assignment `bRing[a1] = bRing[a2] = ... = TRUE`. -/
def markRing (bR : List Bool) (as : List Nat) : List Bool :=
  as.foldl (fun f a => f.set a true) bR

/-- Function `detect_rings`: clears all flags, then for every start atom `a1` walks
chains of up to 8 bonded hops (each level scanning the whole bond list and
refusing to step back onto the atom two hops earlier), marking the atoms of
every chain that closes onto `a1` at length 4,5,6,7 or 8.  Mirrors the
8-level nested loop of the source, including the redundant inner
`a3 != a1` retest before the 5-ring level. -/
def detect_rings (bonds : List (Nat × Nat)) (natom : Nat) : List Bool :=
  (List.range natom).foldl (fun bR0 a1 =>
    bonds.foldl (fun bR1 bj =>
      match bpartner bj a1 with
      | none => bR1
      | some a2 =>
        bonds.foldl (fun bR2 bk =>
          match bpartner bk a2 with
          | none => bR2
          | some a3 =>
            if a3 ≠ a1 then
              bonds.foldl (fun bR3 bl =>
                match bpartner bl a3 with
                | none => bR3
                | some a4 =>
                  if a4 ≠ a2 then
                    bonds.foldl (fun bR4 bm =>
                      match bpartner bm a4 with
                      | none => bR4
                      | some a5 =>
                        if a5 ≠ a3 then
                          if a5 = a1 then
                            markRing bR4 [a1, a2, a3, a4]
                          else if a3 ≠ a1 then
                            bonds.foldl (fun bR5 bn =>
                              match bpartner bn a5 with
                              | none => bR5
                              | some a6 =>
                                if a6 ≠ a4 then
                                  if a6 = a1 then
                                    markRing bR5 [a1, a2, a3, a4, a5]
                                  else
                                    bonds.foldl (fun bR6 bo =>
                                      match bpartner bo a6 with
                                      | none => bR6
                                      | some a7 =>
                                        if a7 ≠ a5 then
                                          if a7 = a1 then
                                            markRing bR6 [a1, a2, a3, a4, a5, a6]
                                          else
                                            bonds.foldl (fun bR7 bp =>
                                              match bpartner bp a7 with
                                              | none => bR7
                                              | some a8 =>
                                                if a8 ≠ a6 then
                                                  if a8 = a1 then
                                                    markRing bR7 [a1, a2, a3, a4, a5, a6, a7]
                                                  else
                                                    bonds.foldl (fun bR8 bq =>
                                                      match bpartner bq a8 with
                                                      | none => bR8
                                                      | some a9 =>
                                                        if a9 = a1 then
                                                          markRing bR8 [a1, a2, a3, a4, a5, a6, a7, a8]
                                                        else bR8) bR7
                                                else bR7) bR6
                                        else bR6) bR5
                                else bR5) bR4
                          else bR4
                        else bR4) bR3
                  else bR3) bR2
            else bR2) bR1) bR0)
    (List.replicate natom false)

/-- C6: on the bond list of a 6-cycle 0-1-2-3-4-5-0 over 7 atoms,
`detect_rings` marks exactly atoms 0..5 as ring members and leaves the
unbonded atom 6 unmarked; with no bonds at all every flag stays at the
cleared value `false`. -/
theorem C6_detect_rings_six_ring :
    detect_rings [(0,1),(1,2),(2,3),(3,4),(4,5),(5,0)] 7 =
      [true, true, true, true, true, true, false] ∧
    detect_rings [] 7 = List.replicate 7 false := by
  exact ⟨by decide, by decide⟩

/-! ## Topology-container initialisation (`do_init_mtop`, lines 753-825)

The distinct-type count: `ntype` starts at 1 (the first atom) and each later
atom contributes 1 exactly when its type differs from the types of all
earlier atoms.  The C inner loop `for (j = 0; !found && (j < i); j++)`
compares against the prefix of earlier atoms; `countTypesGo` carries that
prefix explicitly. -/

/-- The scan over atoms `1..nr-1`; `seen` is the list of earlier atom types. -/
def countTypesGo (seen : List Nat) : List Nat → Nat
  | [] => 0
  | t :: rest => (if t ∈ seen then 0 else 1) + countTypesGo (seen ++ [t]) rest

/-- Count `ntype` as computed by `do_init_mtop`: "at least 1 assuming there is one
atom", plus one for every later atom whose type was not seen before. -/
def countTypes (types : List Nat) : Nat :=
  match types with
  | [] => 1
  | t0 :: rest => 1 + countTypesGo [t0] rest

/-- The `ffparams` fields of `gmx_mtop_t` that `do_init_mtop` fills in.
`ljparams` holds the `(c6, c12)` pair of every entry of the `ntype × ntype`
nonbonded matrix (the `F_LJ` arm of the switch; `snew` zero-initialises and
the arm writes zeros explicitly). -/
structure FFParams where
  atnr : Nat
  ntypes : Nat
  functype : List Nat
  ljparams : List (ℚ × ℚ)
deriving Repr, DecidableEq

/-- Function `do_init_mtop`: counts distinct atom types, sets `atnr = ntype`,
`ntypes = ntype*ntype`, tags every matrix entry with the van-der-Waals
function type and zero coefficients. -/
def do_init_mtop (vdw_ftype : Nat) (types : List Nat) : FFParams :=
  let ntype := countTypes types
  { atnr := ntype
    ntypes := ntype * ntype
    functype := List.replicate (ntype * ntype) vdw_ftype
    ljparams := List.replicate (ntype * ntype) (0, 0) }

theorem countTypesGo_eq (rest : List Nat) :
    ∀ seen : List Nat, countTypesGo seen rest = (rest.toFinset \ seen.toFinset).card := by
  induction rest with
  | nil => intro seen; simp [countTypesGo]
  | cons t r ih =>
    intro seen
    have hseen : (seen ++ [t]).toFinset = insert t seen.toFinset := by
      rw [List.toFinset_append, Finset.union_comm]
      simp [Finset.insert_eq]
    by_cases ht : t ∈ seen
    · have ht' : t ∈ seen.toFinset := List.mem_toFinset.2 ht
      have h1 : (t :: r).toFinset \ seen.toFinset = r.toFinset \ seen.toFinset := by
        simp only [List.toFinset_cons]
        rw [Finset.insert_sdiff_of_mem _ ht']
      rw [countTypesGo, ih (seen ++ [t]), hseen, h1, if_pos ht,
        Finset.insert_eq_self.2 ht', Nat.zero_add]
    · have ht' : t ∉ seen.toFinset := fun hc => ht (List.mem_toFinset.1 hc)
      have h1 : (t :: r).toFinset \ seen.toFinset = insert t (r.toFinset \ seen.toFinset) := by
        simp only [List.toFinset_cons]
        rw [Finset.insert_sdiff_of_not_mem _ ht']
      have h2 : r.toFinset \ (insert t seen.toFinset) =
          (r.toFinset \ seen.toFinset).erase t := Finset.sdiff_insert _ _ _
      rw [countTypesGo, ih (seen ++ [t]), hseen, h1, h2, if_neg ht]
      have hmem : t ∈ insert t (r.toFinset \ seen.toFinset) := Finset.mem_insert_self _ _
      have := Finset.card_erase_add_one hmem
      rw [Finset.erase_insert_eq_erase] at this
      omega

theorem countTypes_eq_card (types : List Nat) (h : types ≠ []) :
    countTypes types = types.toFinset.card := by
  match types with
  | [] => exact absurd rfl h
  | t0 :: rest =>
    have h1 : ([t0] : List Nat).toFinset = {t0} := by simp
    rw [countTypes, countTypesGo_eq rest [t0], h1, Finset.sdiff_singleton_eq_erase]
    have hmem : t0 ∈ (t0 :: rest).toFinset := by simp
    have h2 := Finset.card_erase_add_one hmem
    simp only [List.toFinset_cons, Finset.erase_insert_eq_erase] at h2 ⊢
    omega

/-- C9: for a non-empty atom array, `do_init_mtop` sets `atnr` to the number
of distinct atom-type values (which is at least 1), `ntypes` to its square,
and zero-initialises every `(c6, c12)` entry of the type×type Lennard-Jones
matrix. -/
theorem C9_do_init_mtop (types : List Nat) (h : types ≠ []) :
    (do_init_mtop F_LJ types).atnr = types.toFinset.card ∧
    1 ≤ (do_init_mtop F_LJ types).atnr ∧
    (do_init_mtop F_LJ types).ntypes =
      (do_init_mtop F_LJ types).atnr * (do_init_mtop F_LJ types).atnr ∧
    ∀ p ∈ (do_init_mtop F_LJ types).ljparams, p = ((0 : ℚ), (0 : ℚ)) := by
  refine ⟨countTypes_eq_card types h, ?_, rfl, ?_⟩
  · match types with
    | [] => exact absurd rfl h
    | t0 :: rest => simp [do_init_mtop, countTypes]
  · intro p hp
    exact List.eq_of_mem_replicate hp

/-- Witness for C9 at the concrete type list `[3, 3, 5]`. -/
theorem C9_do_init_mtop_witness :
    (do_init_mtop F_LJ [3, 3, 5]).atnr = ([3, 3, 5] : List Nat).toFinset.card ∧
    1 ≤ (do_init_mtop F_LJ [3, 3, 5]).atnr ∧
    (do_init_mtop F_LJ [3, 3, 5]).ntypes =
      (do_init_mtop F_LJ [3, 3, 5]).atnr * (do_init_mtop F_LJ [3, 3, 5]).atnr ∧
    ∀ p ∈ (do_init_mtop F_LJ [3, 3, 5]).ljparams, p = ((0 : ℚ), (0 : ℚ)) :=
  C9_do_init_mtop [3, 3, 5] (by decide)

/-! ## Per-term coefficient assembly (`plist_to_mtop`, lines 856-916)

For every interaction term the C code builds a `c[MAXFORCEPARAM]` array:
for a non-pair type it copies the term's first `NRFPA` coefficient slots,
silently replacing the `NOTSET` sentinel by 0, and zero-fills the remaining
slots; for `F_LJ14` it instead derives the two slots from the atom types'
Lennard-Jones table entries scaled by `fudgeLJ`.  No failure path exists:
the assembly is a total function. -/

/-- The non-pair branch: copy `nrfp` slots with `NOTSET ↦ 0`, zero-pad. -/
def plist_coeffs (nrfp : Nat) (cin : List ℚ) : List ℚ :=
  (List.range MAXFORCEPARAM).map fun l =>
    if l < nrfp then (if cin.getD l 0 = NOTSET then 0 else cin.getD l 0) else 0

/-- The full per-term dispatch of `plist_to_mtop`'s inner loop; `c6`/`c12`
are the nonbonded-matrix entries looked up for the pair's atom types. -/
def term_coeffs (ftype : Nat) (fudgeLJ c6 c12 : ℚ) (nrfp : Nat) (cin : List ℚ) :
    List ℚ :=
  if ftype = F_LJ14 then
    (List.range MAXFORCEPARAM).map fun l =>
      if l = 0 then c6 * fudgeLJ else if l = 1 then c12 * fudgeLJ else 0
  else plist_coeffs nrfp cin

theorem getD_map_range (n l : Nat) (f : Nat → ℚ) (h : l < n) :
    ((List.range n).map f).getD l 0 = f l := by
  simp [List.getD_eq_getElem?_getD, List.getElem?_map, List.getElem?_range, h]

/-- C10: for a non-pair term, every coefficient slot still equal to `NOTSET`
is silently replaced by 0 in the assembled tuple, slots below `nrfp` holding
other values are copied unchanged, and all slots from `nrfp` up are set
to 0; the assembly raises no error (it is a total function). -/
theorem C10_term_coeffs_notset (ftype nrfp : Nat) (fudgeLJ c6 c12 : ℚ)
    (cin : List ℚ) (hft : ftype ≠ F_LJ14) (hn : nrfp ≤ MAXFORCEPARAM) :
    (∀ l < nrfp, cin.getD l 0 = NOTSET →
      (term_coeffs ftype fudgeLJ c6 c12 nrfp cin).getD l 0 = 0) ∧
    (∀ l < nrfp, cin.getD l 0 ≠ NOTSET →
      (term_coeffs ftype fudgeLJ c6 c12 nrfp cin).getD l 0 = cin.getD l 0) ∧
    (∀ l, nrfp ≤ l →
      (term_coeffs ftype fudgeLJ c6 c12 nrfp cin).getD l 0 = 0) := by
  have hexp : term_coeffs ftype fudgeLJ c6 c12 nrfp cin = plist_coeffs nrfp cin := by
    simp [term_coeffs, hft]
  refine ⟨?_, ?_, ?_⟩
  · intro l hl hset
    rw [hexp, plist_coeffs, getD_map_range _ _ _ (lt_of_lt_of_le hl hn),
      if_pos hl, if_pos hset]
  · intro l hl hset
    rw [hexp, plist_coeffs, getD_map_range _ _ _ (lt_of_lt_of_le hl hn),
      if_pos hl, if_neg hset]
  · intro l hl
    rw [hexp, plist_coeffs]
    by_cases hlt : l < MAXFORCEPARAM
    · rw [getD_map_range _ _ _ hlt]
      simp [Nat.not_lt.2 hl]
    · have : ((List.range MAXFORCEPARAM).map fun l =>
          if l < nrfp then (if cin.getD l 0 = NOTSET then 0 else cin.getD l 0)
          else (0 : ℚ)).length = MAXFORCEPARAM := by
        simp
      rw [List.getD_eq_default]
      rw [this]
      omega

/-- Witness for C10 at `ftype = F_BONDS`, `nrfp = 3`,
`cin = [NOTSET, 7, NOTSET]`. -/
theorem C10_term_coeffs_notset_witness :
    (∀ l < 3, ([NOTSET, 7, NOTSET] : List ℚ).getD l 0 = NOTSET →
      (term_coeffs F_BONDS 1 0 0 3 [NOTSET, 7, NOTSET]).getD l 0 = 0) ∧
    (∀ l < 3, ([NOTSET, 7, NOTSET] : List ℚ).getD l 0 ≠ NOTSET →
      (term_coeffs F_BONDS 1 0 0 3 [NOTSET, 7, NOTSET]).getD l 0 =
        ([NOTSET, 7, NOTSET] : List ℚ).getD l 0) ∧
    (∀ l, 3 ≤ l →
      (term_coeffs F_BONDS 1 0 0 3 [NOTSET, 7, NOTSET]).getD l 0 = 0) :=
  C10_term_coeffs_notset F_BONDS 3 1 0 0 [NOTSET, 7, NOTSET] (by decide) (by decide)

/-! ## Nonbonded combination rules (`generate_nbparam`, lines 711-751)

`ci`/`cj` are the two atom types' self-parameter arrays.  `gmx_fatal` is
modelled as `Except.error` carrying the diagnostic format string. -/

/-- Function `generate_nbparam`: derives the pair's `(c6, c12)` from the two atom
types' self-parameters according to the combination rule; any other
combination rule, and any function type other than `F_LJ`, is fatal. -/
noncomputable def generate_nbparam (ftype comb : Nat) (ci cj : Nat → ℝ) :
    Except String (ℝ × ℝ) :=
  if ftype = F_LJ then
    if comb = eCOMB_GEOMETRIC then
      .ok (Real.sqrt (ci 0 * cj 0), Real.sqrt (ci 1 * cj 1))
    else if comb = eCOMB_ARITHMETIC then
      let sig := (ci 0 + cj 0) * 0.5
      let eps := Real.sqrt (ci 1 * cj 1)
      .ok (4 * eps * sig ^ 6, 4 * eps * sig ^ 12)
    else if comb = eCOMB_GEOM_SIG_EPS then
      let sig := Real.sqrt (ci 0 * cj 0)
      let eps := Real.sqrt (ci 1 * cj 1)
      .ok (4 * eps * sig ^ 6, 4 * eps * sig ^ 12)
    else .error "No such combination rule %d"
  else .error "No such function type supported %s"

/-- C7: the three supported combination rules produce exactly the claimed
coefficient formulas, and any other combination rule or function type is a
fatal error.  The formulas on the right-hand sides are stated as the spec
phrases them (`sig = (ci[0]+cj[0])/2` etc.). -/
theorem C7_generate_nbparam (comb ftype : Nat) (ci cj : Nat → ℝ)
    (hc1 : comb ≠ eCOMB_GEOMETRIC) (hc2 : comb ≠ eCOMB_ARITHMETIC)
    (hc3 : comb ≠ eCOMB_GEOM_SIG_EPS) (hf : ftype ≠ F_LJ) :
    generate_nbparam F_LJ eCOMB_GEOMETRIC ci cj =
      .ok (Real.sqrt (ci 0 * cj 0), Real.sqrt (ci 1 * cj 1)) ∧
    generate_nbparam F_LJ eCOMB_ARITHMETIC ci cj =
      .ok (4 * Real.sqrt (ci 1 * cj 1) * ((ci 0 + cj 0) / 2) ^ 6,
           4 * Real.sqrt (ci 1 * cj 1) * ((ci 0 + cj 0) / 2) ^ 12) ∧
    generate_nbparam F_LJ eCOMB_GEOM_SIG_EPS ci cj =
      .ok (4 * Real.sqrt (ci 1 * cj 1) * Real.sqrt (ci 0 * cj 0) ^ 6,
           4 * Real.sqrt (ci 1 * cj 1) * Real.sqrt (ci 0 * cj 0) ^ 12) ∧
    (∃ msg, generate_nbparam F_LJ comb ci cj = .error msg) ∧
    (∃ msg, generate_nbparam ftype comb ci cj = .error msg) := by
  have hhalf : (ci 0 + cj 0) * 0.5 = (ci 0 + cj 0) / 2 := by ring
  refine ⟨?_, ?_, ?_, ?_, ?_⟩
  · simp [generate_nbparam, F_LJ, eCOMB_GEOMETRIC]
  · simp only [generate_nbparam, if_pos rfl, eCOMB_ARITHMETIC, eCOMB_GEOMETRIC]
    norm_num
    exact ⟨Or.inl (by ring), Or.inl (by ring)⟩
  · simp only [generate_nbparam, if_pos rfl, eCOMB_GEOM_SIG_EPS, eCOMB_GEOMETRIC,
      eCOMB_ARITHMETIC]
    norm_num
  · exact ⟨"No such combination rule %d",
      by simp [generate_nbparam, if_neg hc1, if_neg hc2, if_neg hc3]⟩
  · exact ⟨"No such function type supported %s",
      by simp [generate_nbparam, if_neg hf]⟩

/-- Witness for C7 at `comb = 7` and `ftype = F_BONDS` with
`ci = cj = fun n => n`. -/
theorem C7_generate_nbparam_witness :
    generate_nbparam F_LJ eCOMB_GEOMETRIC (fun n => (n : ℝ)) (fun n => (n : ℝ)) =
      .ok (Real.sqrt ((0 : ℝ) * 0), Real.sqrt ((1 : ℝ) * 1)) ∧
    generate_nbparam F_LJ eCOMB_ARITHMETIC (fun n => (n : ℝ)) (fun n => (n : ℝ)) =
      .ok (4 * Real.sqrt ((1 : ℝ) * 1) * (((0 : ℝ) + 0) / 2) ^ 6,
           4 * Real.sqrt ((1 : ℝ) * 1) * (((0 : ℝ) + 0) / 2) ^ 12) ∧
    generate_nbparam F_LJ eCOMB_GEOM_SIG_EPS (fun n => (n : ℝ)) (fun n => (n : ℝ)) =
      .ok (4 * Real.sqrt ((1 : ℝ) * 1) * Real.sqrt ((0 : ℝ) * 0) ^ 6,
           4 * Real.sqrt ((1 : ℝ) * 1) * Real.sqrt ((0 : ℝ) * 0) ^ 12) ∧
    (∃ msg, generate_nbparam F_LJ 7 (fun n => (n : ℝ)) (fun n => (n : ℝ)) =
      .error msg) ∧
    (∃ msg, generate_nbparam F_BONDS 7 (fun n => (n : ℝ)) (fun n => (n : ℝ)) =
      .error msg) := by
  have h := C7_generate_nbparam 7 F_BONDS (fun n => (n : ℝ)) (fun n => (n : ℝ))
    (by decide) (by decide) (by decide) (by decide)
  simpa using h

/-! ## Linearity classification (`is_linear`, lines 630-640)

`bond_angle(xi, xj, xk)` computes the angle at `xj` between the displacement
vectors `xi - xj` and `xk - xj` as `acos` of their normalised dot product
(`epbcNONE`: plain vector subtraction).  `is_linear` takes the absolute
angle in degrees and returns `(th > th_toler) || (th < 180 - th_toler)`. -/

/-- A 3-D coordinate vector (`rvec`). -/
structure Rvec where
  x : ℝ
  y : ℝ
  z : ℝ

/-- Vector subtraction `rvec_sub`. -/
def rvecSub (a b : Rvec) : Rvec := ⟨a.x - b.x, a.y - b.y, a.z - b.z⟩

/-- Dot product `iprod`. -/
def iprod (a b : Rvec) : ℝ := a.x * b.x + a.y * b.y + a.z * b.z

/-- Euclidean `norm`. -/
noncomputable def rnorm (a : Rvec) : ℝ := Real.sqrt (iprod a a)

/-- Function `cos_angle`: the cosine of the angle between two vectors. -/
noncomputable def cos_angle (u v : Rvec) : ℝ := iprod u v / (rnorm u * rnorm v)

/-- Degrees per radian (`RAD2DEG`). -/
noncomputable def RAD2DEG : ℝ := 180 / Real.pi

/-- Function `bond_angle(xi, xj, xk)` without periodic boundary conditions. -/
noncomputable def bond_angle (xi xj xk : Rvec) : ℝ :=
  Real.arccos (cos_angle (rvecSub xi xj) (rvecSub xk xj))

/-- Predicate `is_linear`: the classifier exactly as written in the source,
`th = fabs(RAD2DEG * bond_angle(...)); return (th > th_toler) || (th < 180 - th_toler)`. -/
noncomputable def is_linear (xi xj xk : Rvec) (th_toler : ℝ) : Prop :=
  |RAD2DEG * bond_angle xi xj xk| > th_toler ∨
  |RAD2DEG * bond_angle xi xj xk| < 180 - th_toler

theorem is_linear_tautology (xi xj xk : Rvec) (t : ℝ) (h : 2 * t < 180) :
    is_linear xi xj xk t := by
  rcases le_or_lt (|RAD2DEG * bond_angle xi xj xk|) t with hle | hgt
  · exact Or.inr (lt_of_le_of_lt hle (by linarith))
  · exact Or.inl hgt

/-- C1 (code bug): the disjunction `(th > th_toler) || (th < 180 - th_toler)`
is a tautology for the default tolerance 5 — it holds whatever the geometry —
so `MakeSpecialInteractions` classifies EVERY two-neighbour atom as linear.
In particular the configuration with the centre at the origin and neighbours
at `(+1,0,0)` and `(0,1,0)` (neighbour–centre–neighbour angle 90°) is
classified linear, contradicting the claim that it must not be; the
co-linear configuration is (vacuously) classified linear as well.
(The intended predicate is the De Morgan dual
`(th ≤ th_toler) || (th ≥ 180 - th_toler)`, "within tolerance of 0° or
180°"; the source negated it.) -/
theorem C1_is_linear_bug :
    is_linear ⟨0, 0, 0⟩ ⟨1, 0, 0⟩ ⟨0, 1, 0⟩ 5 ∧
    is_linear ⟨0, 0, 0⟩ ⟨1, 0, 0⟩ ⟨-1, 0, 0⟩ 5 :=
  ⟨is_linear_tautology _ _ _ 5 (by norm_num),
   is_linear_tautology _ _ _ 5 (by norm_num)⟩

/-! ## Status propagation in `MyMol::GenerateTopology` (lines 1179-1286)

The `immStatus` enumeration (order as in the `immsg` message table,
lines 344-358). -/

/-- Per-molecule status codes. -/
inductive immStatus where
  | immUnknown | immOK | immZeroDip | immNoQuad | immCharged
  | immAtomTypes | immAtomNumber | immMolpropConv | immBondOrder | immRespInit
  | immChargeGeneration | immLOT | immQMInconsistency | immTest | immNoData
  | immGenShells | immGenBonds | immCommProblem
deriving DecidableEq, Repr

/-- The four functional-type declarations `GenerateTopology` reads from the
Parameter Store; `none` models the `NOTSET` return. -/
structure PdFtypes where
  bond_ftype : Option Nat
  angle_ftype : Option Nat
  idihs_ftype : Option Nat
  pdihs_ftype : Option Nat

/-- Routine `MyMol::GenerateAtoms` reduced to its status result: `immLOT` when the
requested level of theory has no calculation, `immOK` otherwise. -/
def GenerateAtomsStatus (lotPresent : Bool) : immStatus :=
  if lotPresent then .immOK else .immLOT

/-- The control flow of `MyMol::GenerateTopology`: the four functional-type
checks call `gmx_fatal` (modelled as `Except.error`) before anything else;
then `immAtomTypes` for an empty composition, the `GenerateAtoms` status,
and `immGenBonds` for a moleule with zero bonds are merged into the
returned status value. -/
def GenerateTopologyStatus (pd : PdFtypes) (natom : Nat) (lotPresent : Bool)
    (nbond : Nat) : Except String immStatus :=
  match pd.bond_ftype with
  | none => .error "No bonded type defined in force field file"
  | some _ =>
  match pd.angle_ftype with
  | none => .error "No angle type defined in force field file"
  | some _ =>
  match pd.idihs_ftype with
  | none => .error "No improper dihedral type defined in force field file"
  | some _ =>
  match pd.pdihs_ftype with
  | none => .error "No dihedral type defined in force field file"
  | some _ =>
    let imm1 := if natom ≤ 0 then immStatus.immAtomTypes else .immOK
    let imm2 := if imm1 = .immOK then GenerateAtomsStatus lotPresent else imm1
    let imm3 := if imm2 = .immOK ∧ nbond = 0 then .immGenBonds else imm2
    .ok imm3

/-- C8: with all four functional types declared, a molecule with zero bonds
yields the returned status `immGenBonds`, an empty composition yields
`immAtomTypes`, and a missing level of theory propagates `GenerateAtoms`'s
`immLOT` up to the caller; whereas a Store in which the bond, angle,
improper or proper dihedral functional type is `NOTSET` aborts fatally with
a diagnostic before any per-molecule work. -/
theorem C8_GenerateTopology_status
    (pd pdB pdA pdI pdP : PdFtypes) (ftb fta fti ftp : Nat) (natom nbond : Nat)
    (hb : pd.bond_ftype = some ftb) (ha : pd.angle_ftype = some fta)
    (hi : pd.idihs_ftype = some fti) (hp : pd.pdihs_ftype = some ftp)
    (hnatom : 0 < natom)
    (hB : pdB.bond_ftype = none)
    (hA1 : pdA.bond_ftype = some ftb) (hA2 : pdA.angle_ftype = none)
    (hI1 : pdI.bond_ftype = some ftb) (hI2 : pdI.angle_ftype = some fta)
    (hI3 : pdI.idihs_ftype = none)
    (hP1 : pdP.bond_ftype = some ftb) (hP2 : pdP.angle_ftype = some fta)
    (hP3 : pdP.idihs_ftype = some fti) (hP4 : pdP.pdihs_ftype = none) :
    GenerateTopologyStatus pd natom true 0 = .ok .immGenBonds ∧
    GenerateTopologyStatus pd 0 true nbond = .ok .immAtomTypes ∧
    GenerateTopologyStatus pd natom false nbond = .ok (GenerateAtomsStatus false) ∧
    GenerateAtomsStatus false = .immLOT ∧
    (∃ m, GenerateTopologyStatus pdB natom true nbond = .error m) ∧
    (∃ m, GenerateTopologyStatus pdA natom true nbond = .error m) ∧
    (∃ m, GenerateTopologyStatus pdI natom true nbond = .error m) ∧
    (∃ m, GenerateTopologyStatus pdP natom true nbond = .error m) := by
  have hn : ¬ (natom ≤ 0) := by omega
  refine ⟨?_, ?_, ?_, rfl, ?_, ?_, ?_, ?_⟩
  · simp [GenerateTopologyStatus, hb, ha, hi, hp, hn, GenerateAtomsStatus]
  · simp [GenerateTopologyStatus, hb, ha, hi, hp]
  · simp [GenerateTopologyStatus, hb, ha, hi, hp, hn, GenerateAtomsStatus]
  · exact ⟨"No bonded type defined in force field file",
      by simp [GenerateTopologyStatus, hB]⟩
  · exact ⟨"No angle type defined in force field file",
      by simp [GenerateTopologyStatus, hA1, hA2]⟩
  · exact ⟨"No improper dihedral type defined in force field file",
      by simp [GenerateTopologyStatus, hI1, hI2, hI3]⟩
  · exact ⟨"No dihedral type defined in force field file",
      by simp [GenerateTopologyStatus, hP1, hP2, hP3, hP4]⟩

/-- Witness for C8 at concrete Parameter Stores. -/
theorem C8_GenerateTopology_status_witness :
    GenerateTopologyStatus ⟨some 1, some 2, some 3, some 4⟩ 3 true 0 =
      .ok .immGenBonds ∧
    GenerateTopologyStatus ⟨some 1, some 2, some 3, some 4⟩ 0 true 5 =
      .ok .immAtomTypes ∧
    GenerateTopologyStatus ⟨some 1, some 2, some 3, some 4⟩ 3 false 5 =
      .ok (GenerateAtomsStatus false) ∧
    GenerateAtomsStatus false = .immLOT ∧
    (∃ m, GenerateTopologyStatus ⟨none, some 2, some 3, some 4⟩ 3 true 5 =
      .error m) ∧
    (∃ m, GenerateTopologyStatus ⟨some 1, none, some 3, some 4⟩ 3 true 5 =
      .error m) ∧
    (∃ m, GenerateTopologyStatus ⟨some 1, some 2, none, some 4⟩ 3 true 5 =
      .error m) ∧
    (∃ m, GenerateTopologyStatus ⟨some 1, some 2, some 3, none⟩ 3 true 5 =
      .error m) :=
  C8_GenerateTopology_status ⟨some 1, some 2, some 3, some 4⟩
    ⟨none, some 2, some 3, some 4⟩ ⟨some 1, none, some 3, some 4⟩
    ⟨some 1, some 2, none, some 4⟩ ⟨some 1, some 2, some 3, none⟩
    1 2 3 4 3 5 rfl rfl rfl rfl (by decide) rfl rfl rfl rfl rfl rfl rfl rfl rfl rfl

/-! ## Bonded parameter resolution (`get_force_constants`, lines 263-339)

Strings (bond-type names and the whitespace-separated auxiliary parameter
string) are modelled by interned `Nat` handles and a pre-tokenised `List ℚ`.
A successful `gmx_poldata_search_*` call is `some (value, tokens)`, failure
is `none` (the C functions return a positive `int` on success). -/

/-- One interaction term of a `t_params` list: atom indices and coefficient
slots. -/
structure BParam where
  a : List Nat
  c : List ℚ
deriving DecidableEq, Repr

instance : Inhabited BParam := ⟨⟨[], []⟩⟩

/-- The Parameter Store operations consumed by `get_force_constants`. -/
structure PdStore where
  bond_ftype : Nat
  angle_ftype : Nat
  dih_ftype : Nat → Nat
  atype_to_btype : Nat → Nat
  search_bond : Nat → Nat → Option (ℚ × List ℚ)
  search_angle : Nat → Nat → Nat → Option (ℚ × List ℚ)
  search_dihedral : Nat → Nat → Nat → Nat → Nat → Option (ℚ × List ℚ)

/-- The `ATP` macro: atom index → assigned atom type → bond-type handle. -/
def ATP (pd : PdStore) (aty : Nat → Nat) (i : Nat) : Nat :=
  pd.atype_to_btype (aty i)

/-- Conversion `convert2gmx(xx, eg2cPm)`: picometre → nanometre. -/
def convert2gmxPm (x : ℚ) : ℚ := 0.001 * x

/-- Writing a successful lookup into a term's coefficient array:
`c[0] = c0`, `c[1+n] = token n` for each auxiliary token (the loop cap
`n < MAXFORCEPARAM-1` is implied by `l < MAXFORCEPARAM`), later slots
unchanged. -/
def setC (cold : List ℚ) (c0 : ℚ) (ps : List ℚ) : List ℚ :=
  (List.range MAXFORCEPARAM).map fun l =>
    if l = 0 then c0
    else if l - 1 < ps.length then ps.getD (l - 1) 0
    else cold.getD l 0

/-- The bond loop body: on a Store hit set `c[0] = convert2gmx(xx, eg2cPm)`
and fill the auxiliary tokens; on a miss the term is left untouched. -/
def resolve_bond (pd : PdStore) (aty : Nat → Nat) (p : BParam) : BParam :=
  match pd.search_bond (ATP pd aty (p.a.getD 0 0)) (ATP pd aty (p.a.getD 1 0)) with
  | some (xx, ps) => { p with c := setC p.c (convert2gmxPm xx) ps }
  | none => p

/-- The angle loop body (`c[0] = xx`, no unit conversion). -/
def resolve_angle (pd : PdStore) (aty : Nat → Nat) (p : BParam) : BParam :=
  match pd.search_angle (ATP pd aty (p.a.getD 0 0)) (ATP pd aty (p.a.getD 1 0))
      (ATP pd aty (p.a.getD 2 0)) with
  | some (xx, ps) => { p with c := setC p.c xx ps }
  | none => p

/-- The dihedral loop body for dihedral kind `k` (`egdPDIHS = 0`,
`egdIDIHS = 1`). -/
def resolve_dihedral (pd : PdStore) (aty : Nat → Nat) (k : Nat) (p : BParam) :
    BParam :=
  match pd.search_dihedral k (ATP pd aty (p.a.getD 0 0))
      (ATP pd aty (p.a.getD 1 0)) (ATP pd aty (p.a.getD 2 0))
      (ATP pd aty (p.a.getD 3 0)) with
  | some (xx, ps) => { p with c := setC p.c xx ps }
  | none => p

/-- Apply a per-term update to the list stored at function type `ft`. -/
def updF (pl : Nat → List BParam) (ft : Nat) (f : BParam → BParam) :
    Nat → List BParam :=
  fun x => if x = ft then (pl ft).map f else pl x

/-- Function `get_force_constants`: resolves the bond list, the angle list and the
two dihedral lists (`k < egdNR = 2`) against the Store.  The function is
total: no lookup failure is fatal. -/
def get_force_constants (pd : PdStore) (aty : Nat → Nat)
    (pl : Nat → List BParam) : Nat → List BParam :=
  let pl1 := updF pl pd.bond_ftype (resolve_bond pd aty)
  let pl2 := updF pl1 pd.angle_ftype (resolve_angle pd aty)
  let pl3 := updF pl2 (pd.dih_ftype 0) (resolve_dihedral pd aty 0)
  updF pl3 (pd.dih_ftype 1) (resolve_dihedral pd aty 1)

/-- A Store in which every lookup fails. -/
def pdFail : PdStore :=
  { bond_ftype := 0
    angle_ftype := 1
    dih_ftype := fun k => 2 + k
    atype_to_btype := fun t => t
    search_bond := fun _ _ => none
    search_angle := fun _ _ _ => none
    search_dihedral := fun _ _ _ _ _ => none }

/-- A parameter list with one bond term whose coefficients are `NOTSET`. -/
def plistNotset : Nat → List BParam :=
  fun ft => if ft = 0 then [⟨[0, 1], [NOTSET, NOTSET]⟩] else []

/-- C3 counterexample: when the Store has no match for the bond term's
bond-type pair, `get_force_constants` returns normally and the term's
coefficient slot 0 is still the `NOTSET` sentinel — the generation
does NOT abort; the claim's "is fatal ... rather than leaving the term's
coefficients unset and continuing" is false of `get_force_constants`
(only `MyMol::UpdateIdef`, lines 2307-2346, aborts on a failed lookup). -/
theorem C3_counterexample :
    ((get_force_constants pdFail (fun i => i) plistNotset 0).getD 0
      default).c.getD 0 0 = NOTSET := by
  decide

theorem updF_congr (pl : Nat → List BParam) (ft : Nat) (f : BParam → BParam)
    (h : ∀ p, f p = p) (x : Nat) : updF pl ft f x = pl x := by
  unfold updF
  by_cases hx : x = ft
  · subst hx
    simp [if_pos rfl, List.map_congr_left fun p _ => h p]
  · simp [hx]

/-- C3 amended: when the Store returns no match for any bond, angle or
dihedral lookup, `get_force_constants` leaves every interaction list
unchanged — the unresolved coefficients stay `NOTSET` and generation
continues normally (resolution failure is silent, not fatal). -/
theorem C3_get_force_constants_silent (pd : PdStore) (aty : Nat → Nat)
    (pl : Nat → List BParam) (ft : Nat)
    (h1 : ∀ a b, pd.search_bond a b = none)
    (h2 : ∀ a b c, pd.search_angle a b c = none)
    (h3 : ∀ k a b c d, pd.search_dihedral k a b c d = none) :
    get_force_constants pd aty pl ft = pl ft := by
  unfold get_force_constants
  rw [updF_congr _ _ _ (fun p => by simp [resolve_dihedral, h3]),
      updF_congr _ _ _ (fun p => by simp [resolve_dihedral, h3]),
      updF_congr _ _ _ (fun p => by simp [resolve_angle, h2]),
      updF_congr _ _ _ (fun p => by simp [resolve_bond, h1])]

/-- Witness for C3's amended statement at the all-failing Store. -/
theorem C3_get_force_constants_silent_witness :
    get_force_constants pdFail (fun i => i) plistNotset 0 = plistNotset 0 :=
  C3_get_force_constants_silent pdFail (fun i => i) plistNotset 0
    (fun _ _ => rfl) (fun _ _ _ => rfl) (fun _ _ _ _ _ => rfl)

/-! ## Shell insertion (`MyMol::AddShells`, lines 1921-2076)

The renumbering table is `renum[i] = i + (number of shell-bearing atoms
before i)`; a shell-bearing atom `i` (one whose atom type has a
polarizability entry, `gmx_poldata_get_atype_pol` returning 1) gets its
shell at new index `renum[i] + 1`.  The new atom array interleaves each
parent with its shell; the parent's charge is zeroed and the shell copy
gets zero mass and atom number (`newa->atom[iat].q = 0`,
`newa->atom[j].m = 0`, lines 1997-2002).  The C code registers a fresh
`"<type>s"` atom type for the shell whose particle type is `eptShell`;
the model records shell-ness directly in the atom's `ptype` field, which
is exactly what `get_atomtype_ptype` recovers in `prune_excl`. -/

/-- Particle kinds (`eptAtom`, `eptShell`, `eptVSite`). -/
inductive PType where
  | atom | shell | vsite
deriving DecidableEq, Repr

/-- The `t_atom` fields `AddShells` reads or writes. -/
structure TAtom where
  q : ℚ
  qB : ℚ
  m : ℚ
  mB : ℚ
  atomnumber : Nat
  typ : Nat
  ptype : PType
deriving DecidableEq, Repr

instance : Inhabited TAtom := ⟨⟨0, 0, 0, 0, 0, 0, .atom⟩⟩

/-- Whether the Store has a polarizability entry for this atom's type. -/
def hasShell (pol : Nat → Option ℚ) (a : TAtom) : Bool := (pol a.typ).isSome

/-- Counter `ns`: the total number of shells that will be added. -/
def nshells (pol : Nat → Option ℚ) (atoms : List TAtom) : Nat :=
  atoms.countP (hasShell pol)

/-- The renumbering table of lines 1940-1953: old index → new index. -/
def renum (pol : Nat → Option ℚ) (atoms : List TAtom) (i : Nat) : Nat :=
  i + (atoms.take i).countP (hasShell pol)

/-- One `F_POLARIZATION` term: core index, shell index, `c[0]`. -/
structure PolParam where
  a0 : Nat
  a1 : Nat
  c0 : ℚ
deriving DecidableEq, Repr

/-- The polarization terms appended in the first loop (lines 1940-1952):
for every shell-bearing atom `i`, atoms `(renum i, renum i + 1)` with
`c[0] = 0.001 * pol`. -/
def polList (pol : Nat → Option ℚ) (atoms : List TAtom) : List PolParam :=
  (List.range atoms.length).filterMap fun i =>
    match pol ((atoms.getD i default).typ) with
    | some p => some ⟨renum pol atoms i, renum pol atoms i + 1, 0.001 * p⟩
    | none => none

/-- The parent's charge zeroing (`newa->atom[iat].q = newa->atom[iat].qB = 0`). -/
def zeroQ (a : TAtom) : TAtom := { a with q := 0, qB := 0 }

/-- The shell copy of its parent (`newa->atom[j] = atom[i]` followed by
`m = mB = 0`, `atomnumber = 0`, `ptype = eptShell`); all other fields —
including the charge `q`/`qB` — are inherited from the parent. -/
def mkShell (a : TAtom) : TAtom :=
  { a with m := 0, mB := 0, atomnumber := 0, ptype := .shell }

/-- The new atom array (`ns > 0` branch): each shell-bearing parent is
followed by its shell; with no shells the array is left untouched. -/
def addShellsAtoms (pol : Nat → Option ℚ) (atoms : List TAtom) : List TAtom :=
  if nshells pol atoms = 0 then atoms
  else atoms.flatMap fun a =>
    if hasShell pol a then [zeroQ a, mkShell a] else [a]

/-- C2 counterexample input: a single atom of charge 1 whose type 0 has
polarizability 5 in the Store. -/
def pdPol5 : Nat → Option ℚ := fun t => if t = 0 then some 5 else none

/-- The single charged atom for the C2 counterexample. -/
def atomQ1 : TAtom := ⟨1, 1, 12, 12, 6, 0, .atom⟩

/-- C2 counterexample: the appended shell particle does NOT have zero
charge — it inherits the parent's pre-insertion charge (here 1), because
`newa->atom[j] = topology_->atoms.atom[i]` copies `q` and only the PARENT's
charge is zeroed (`newa->atom[iat].q = 0`). -/
theorem C2_counterexample :
    ((addShellsAtoms pdPol5 [atomQ1]).getD 1 default).q ≠ 0 := by
  decide

/-- C2 amended: for a single atom whose type has a polarizability entry,
`AddShells` yields exactly 2 atoms; the appended shell has zero mass but
carries the parent's pre-insertion charge, while the parent's own charge is
reset to zero; and exactly one polarization term exists, with coefficient
slot 0 equal to `0.001 *` the polarizability value. -/
theorem C2_AddShells_single_atom (pol : Nat → Option ℚ) (a : TAtom) (p : ℚ)
    (hp : pol a.typ = some p) :
    (addShellsAtoms pol [a]).length = 2 ∧
    ((addShellsAtoms pol [a]).getD 1 default).ptype = PType.shell ∧
    ((addShellsAtoms pol [a]).getD 1 default).m = 0 ∧
    ((addShellsAtoms pol [a]).getD 1 default).mB = 0 ∧
    ((addShellsAtoms pol [a]).getD 1 default).q = a.q ∧
    ((addShellsAtoms pol [a]).getD 0 default).q = 0 ∧
    polList pol [a] = [⟨0, 1, 0.001 * p⟩] := by
  have hs : hasShell pol a = true := by simp [hasShell, hp]
  have hns : nshells pol [a] = 1 := by simp [nshells, hs]
  have hatoms : addShellsAtoms pol [a] = [zeroQ a, mkShell a] := by
    simp [addShellsAtoms, hns, hs]
  refine ⟨?_, ?_, ?_, ?_, ?_, ?_, ?_⟩
  · rw [hatoms]; rfl
  · rw [hatoms]; rfl
  · rw [hatoms]; rfl
  · rw [hatoms]; rfl
  · rw [hatoms]; rfl
  · rw [hatoms]; rfl
  · simp [polList, List.range_succ, hp, renum]

/-- Witness for C2's amended statement at the concrete charged atom. -/
theorem C2_AddShells_single_atom_witness :
    (addShellsAtoms pdPol5 [atomQ1]).length = 2 ∧
    ((addShellsAtoms pdPol5 [atomQ1]).getD 1 default).ptype = PType.shell ∧
    ((addShellsAtoms pdPol5 [atomQ1]).getD 1 default).m = 0 ∧
    ((addShellsAtoms pdPol5 [atomQ1]).getD 1 default).mB = 0 ∧
    ((addShellsAtoms pdPol5 [atomQ1]).getD 1 default).q = atomQ1.q ∧
    ((addShellsAtoms pdPol5 [atomQ1]).getD 0 default).q = 0 ∧
    polList pdPol5 [atomQ1] = [⟨0, 1, 0.001 * 5⟩] :=
  C2_AddShells_single_atom pdPol5 atomQ1 5 rfl

/-! ### The exclusion rebuild of `AddShells` (lines 1966-2046)

Exclusion state is the array `newexcls`: one list of excluded atom indices
per (new) atom index.  `add_excl` appends an entry unless already present;
`addE` performs one such directed insertion at a given atom; `applyOps`
replays a sequence of directed insertions, which is how each loop of the
source is rendered (each loop body is a fixed sequence of `add_excl`
calls). -/

/-- Function `add_excl` (lines 1804-1817): append `e` unless already present. -/
def add_excl (l : List Nat) (e : Nat) : List Nat :=
  if e ∈ l then l else l ++ [e]

/-- One directed insertion `add_excl(&excls[p.1], p.2)`. -/
def addE (s : List (List Nat)) (p : Nat × Nat) : List (List Nat) :=
  s.set p.1 (add_excl (s.getD p.1 []) p.2)

/-- Replay a sequence of directed insertions. -/
def applyOps (s : List (List Nat)) (ops : List (Nat × Nat)) : List (List Nat) :=
  ops.foldl addE s

/-- Loop 1968-1974: for every polarization pair, core and shell exclude
each other. -/
def s1ops (pol : Nat → Option ℚ) (atoms : List TAtom) : List (Nat × Nat) :=
  (polList pol atoms).flatMap fun t => [(t.a0, t.a1), (t.a1, t.a0)]

/-- Loop 1988-2028 (it reads only the OLD exclusion array `excls_`, so its
insertions form a fixed sequence): for every old atom `i`, first the
one-directional inheritance `add_excl(&newexcls[renum i], renum e)` for each
old exclusion `e` (lines 1991-1994), then — when atom `i` carries a shell
`j = renum i + 1` (the loop `for (j = iat+1; j < renum[i+1]; j++)` runs for
exactly that index) — the two-directional `add_excl` pair between the shell
and each `renum e`, guarded by `ai != aj` (lines 2017-2026). -/
def s2ops (pol : Nat → Option ℚ) (atoms : List TAtom)
    (excls : List (List Nat)) : List (Nat × Nat) :=
  (List.range atoms.length).flatMap fun i =>
    ((excls.getD i []).map fun e => (renum pol atoms i, renum pol atoms e)) ++
    (if hasShell pol (atoms.getD i default) then
      (excls.getD i []).flatMap fun e =>
        if renum pol atoms i + 1 ≠ renum pol atoms e then
          [(renum pol atoms i + 1, renum pol atoms e),
           (renum pol atoms e, renum pol atoms i + 1)]
        else []
    else [])

/-- One iteration of loop 2029-2045: the shell of atom `i` mutually excludes
everything its core currently excludes.  The C loop iterates over
`newexcls[iat]` by index while inserting; the only insertion that could touch
`newexcls[iat]` itself is `add_excl(&newexcls[aj], ai)` with `aj = iat`
(a self-entry), and its argument `ai = j` is already present there from the
polarization-pair loop, so the iterated list never grows and reading the
snapshot is exact. -/
def s3ops (pol : Nat → Option ℚ) (atoms : List TAtom)
    (s : List (List Nat)) (i : Nat) : List (Nat × Nat) :=
  (s.getD (renum pol atoms i) []).flatMap fun e =>
    if renum pol atoms i + 1 ≠ e then
      [(renum pol atoms i + 1, e), (e, renum pol atoms i + 1)]
    else []

/-- The body of loop 2029-2045 for one atom `i` (see the doc comment above
for why reading the snapshot of `newexcls[iat]` is exact). -/
def step3At (pol : Nat → Option ℚ) (atoms : List TAtom)
    (s : List (List Nat)) (i : Nat) : List (List Nat) :=
  if hasShell pol (atoms.getD i default) then applyOps s (s3ops pol atoms s i)
  else s

/-- Loop 2029-2045 over all old atoms. -/
def step3 (pol : Nat → Option ℚ) (atoms : List TAtom)
    (s : List (List Nat)) : List (List Nat) :=
  (List.range atoms.length).foldl (step3At pol atoms) s

/-- Is the (new-index) atom `x` a shell?  (`get_atomtype_ptype(atom[x].type)
== eptShell`.) -/
def isShellIdx (atoms : List TAtom) (x : Nat) : Bool :=
  (atoms.getD x default).ptype == PType.shell

/-- The inner `for (k ...)` of `prune_excl`: delete every non-shell entry,
keep the shell entries in order. -/
def prune_one (isSh : Nat → Bool) : List Nat → List Nat
  | [] => []
  | a :: t => if isSh a then a :: prune_one isSh t else prune_one isSh t

/-- Recursion of `prune_excl` over atoms from index `i` upward. -/
def prune_go (isSh : Nat → Bool) : Nat → List (List Nat) → List (List Nat)
  | _, [] => []
  | i, l :: t =>
    (if isSh i then l else prune_one isSh l) :: prune_go isSh (i + 1) t

/-- Function `prune_excl` (lines 1831-1853): for every non-shell atom, remove every
non-shell entry from its exclusion list; shell atoms' lists are untouched. -/
def prune_excl (isSh : Nat → Bool) (s : List (List Nat)) : List (List Nat) :=
  prune_go isSh 0 s

/-- The full exclusion rebuild of `AddShells`: when no shell is added the
array is untouched; otherwise the freshly `snew`-ed (empty) array of
`natoms + ns` lists receives the polarization pairs, the inherited and
shell-lifted exclusions, the core→shell closure pass, and finally one
`prune_excl` pass. -/
def addShellsExcls (pol : Nat → Option ℚ) (atoms : List TAtom)
    (excls : List (List Nat)) : List (List Nat) :=
  if nshells pol atoms = 0 then excls
  else
    prune_excl (isShellIdx (addShellsAtoms pol atoms))
      (step3 pol atoms
        (applyOps
          (applyOps (List.replicate (atoms.length + nshells pol atoms) [])
            (s1ops pol atoms))
          (s2ops pol atoms excls)))

theorem mem_prune_one (isSh : Nat → Bool) (l : List Nat) (y : Nat) :
    y ∈ prune_one isSh l ↔ y ∈ l ∧ isSh y = true := by
  induction l with
  | nil => simp [prune_one]
  | cons a t ih =>
    by_cases ha : isSh a = true
    · simp only [prune_one, if_pos ha, List.mem_cons, ih]
      constructor
      · rintro (rfl | ⟨hy, hsy⟩)
        · exact ⟨Or.inl rfl, ha⟩
        · exact ⟨Or.inr hy, hsy⟩
      · rintro ⟨rfl | hy, hsy⟩
        · exact Or.inl rfl
        · exact Or.inr ⟨hy, hsy⟩
    · simp only [prune_one, if_neg ha, ih, List.mem_cons]
      constructor
      · rintro ⟨hy, hsy⟩
        exact ⟨Or.inr hy, hsy⟩
      · rintro ⟨rfl | hy, hsy⟩
        · exact absurd hsy ha
        · exact ⟨hy, hsy⟩

theorem prune_one_idem (isSh : Nat → Bool) (l : List Nat) :
    prune_one isSh (prune_one isSh l) = prune_one isSh l := by
  induction l with
  | nil => rfl
  | cons a t ih =>
    by_cases ha : isSh a = true
    · simp only [prune_one, if_pos ha, ih]
    · simp only [prune_one, if_neg ha, ih]

theorem prune_go_idem (isSh : Nat → Bool) (s : List (List Nat)) :
    ∀ i, prune_go isSh i (prune_go isSh i s) = prune_go isSh i s := by
  induction s with
  | nil => intro i; rfl
  | cons l t ih =>
    intro i
    by_cases hi : isSh i = true
    · simp only [prune_go, if_pos hi, ih]
    · simp only [prune_go, if_neg hi, prune_one_idem, ih]

theorem length_prune_go (isSh : Nat → Bool) (s : List (List Nat)) :
    ∀ i, (prune_go isSh i s).length = s.length := by
  induction s with
  | nil => intro i; rfl
  | cons l t ih => intro i; simp [prune_go, ih]

theorem getD_prune_go (isSh : Nat → Bool) (s : List (List Nat)) :
    ∀ i x, x < s.length →
      (prune_go isSh i s).getD x [] =
        (if isSh (i + x) then s.getD x [] else prune_one isSh (s.getD x [])) := by
  induction s with
  | nil => intro i x hx; simp at hx
  | cons l t ih =>
    intro i x hx
    match x with
    | 0 => simp [prune_go]
    | x + 1 =>
      have hx' : x < t.length := by simpa using hx
      have := ih (i + 1) x hx'
      simp only [prune_go, List.getD_cons_succ, this]
      have harith : i + 1 + x = i + (x + 1) := by omega
      rw [harith]

/-- C4: after `AddShells` has added at least one shell, a non-shell atom's
exclusion list contains only shell entries — in particular no exclusion
between two real atoms (whether or not it arose through a shell
intermediate) survives the single `prune_excl` pass — and the resulting
exclusion array is a fixed point of `prune_excl`: running the pass again
changes nothing. -/
theorem C4_prune_excl_fixed_point (pol : Nat → Option ℚ) (atoms : List TAtom)
    (excls : List (List Nat)) (hns : 0 < nshells pol atoms) :
    (∀ x y, isShellIdx (addShellsAtoms pol atoms) x = false →
      y ∈ (addShellsExcls pol atoms excls).getD x [] →
      isShellIdx (addShellsAtoms pol atoms) y = true) ∧
    prune_excl (isShellIdx (addShellsAtoms pol atoms))
        (addShellsExcls pol atoms excls) =
      addShellsExcls pol atoms excls := by
  have hne : ¬ (nshells pol atoms = 0) := by omega
  set isSh := isShellIdx (addShellsAtoms pol atoms) with hisSh
  obtain ⟨s3, hs3⟩ : ∃ s3, addShellsExcls pol atoms excls = prune_excl isSh s3 := by
    refine ⟨step3 pol atoms (applyOps
      (applyOps (List.replicate (atoms.length + nshells pol atoms) [])
        (s1ops pol atoms)) (s2ops pol atoms excls)), ?_⟩
    simp [addShellsExcls, hne]
  constructor
  · intro x y hx hy
    rw [hs3] at hy
    by_cases hxl : x < s3.length
    · rw [prune_excl, getD_prune_go isSh s3 0 x hxl] at hy
      simp only [Nat.zero_add] at hy
      rw [if_neg (by simp [hx])] at hy
      exact ((mem_prune_one isSh _ y).1 hy).2
    · rw [prune_excl, List.getD_eq_default] at hy
      · exact absurd hy (List.not_mem_nil y)
      · rw [length_prune_go]; omega
  · rw [hs3, prune_excl, prune_excl, prune_go_idem]

/-- Witness for C4: two atoms (types 0 and 1, type 0 polarizable) that
exclude each other. -/
theorem C4_prune_excl_fixed_point_witness :
    (∀ x y, isShellIdx (addShellsAtoms pdPol5 [atomQ1, ⟨0, 0, 1, 1, 1, 1, .atom⟩]) x = false →
      y ∈ (addShellsExcls pdPol5 [atomQ1, ⟨0, 0, 1, 1, 1, 1, .atom⟩] [[1], [0]]).getD x [] →
      isShellIdx (addShellsAtoms pdPol5 [atomQ1, ⟨0, 0, 1, 1, 1, 1, .atom⟩]) y = true) ∧
    prune_excl (isShellIdx (addShellsAtoms pdPol5 [atomQ1, ⟨0, 0, 1, 1, 1, 1, .atom⟩]))
        (addShellsExcls pdPol5 [atomQ1, ⟨0, 0, 1, 1, 1, 1, .atom⟩] [[1], [0]]) =
      addShellsExcls pdPol5 [atomQ1, ⟨0, 0, 1, 1, 1, 1, .atom⟩] [[1], [0]] :=
  C4_prune_excl_fixed_point pdPol5 [atomQ1, ⟨0, 0, 1, 1, 1, 1, .atom⟩] [[1], [0]]
    (by decide)

/-! ### Symmetry of the rebuilt exclusion array (claim C5)

`SymE` is the spec's invariant "i excludes j iff j excludes i".  The generic
lemmas characterise membership after a replayed insertion sequence; the key
fact is that `applyOps` adds exactly the directed pairs of its op list whose
source index is in range. -/

/-- The symmetry invariant on an exclusion array. -/
def SymE (s : List (List Nat)) : Prop :=
  ∀ x y, y ∈ s.getD x [] ↔ x ∈ s.getD y []

/-- All stored exclusion entries are below `N`. -/
def BoundedE (N : Nat) (s : List (List Nat)) : Prop :=
  ∀ x y, y ∈ s.getD x [] → y < N

theorem mem_add_excl (l : List Nat) (e y : Nat) :
    y ∈ add_excl l e ↔ y ∈ l ∨ y = e := by
  unfold add_excl
  by_cases he : e ∈ l
  · simp only [if_pos he]
    constructor
    · exact fun h => Or.inl h
    · rintro (h | rfl)
      · exact h
      · exact he
  · simp [if_neg he]

theorem length_addE (s : List (List Nat)) (p : Nat × Nat) :
    (addE s p).length = s.length := by
  simp [addE]

theorem getD_addE (s : List (List Nat)) (p : Nat × Nat) (x : Nat) :
    (addE s p).getD x [] =
      if x = p.1 ∧ p.1 < s.length then add_excl (s.getD p.1 []) p.2
      else s.getD x [] := by
  unfold addE
  by_cases hx : x = p.1
  · by_cases hlt : p.1 < s.length
    · rw [hx]
      simp [List.getD_eq_getElem?_getD, List.getElem?_set, hlt]
    · rw [hx]
      have h1 : s[p.1]? = none := List.getElem?_eq_none (by omega)
      simp [List.getD_eq_getElem?_getD, List.getElem?_set, hlt, h1]
  · have hx' : p.1 ≠ x := Ne.symm hx
    simp [List.getD_eq_getElem?_getD, List.getElem?_set, hx', hx]

theorem length_applyOps (ops : List (Nat × Nat)) :
    ∀ s : List (List Nat), (applyOps s ops).length = s.length := by
  induction ops with
  | nil => intro s; rfl
  | cons p t ih =>
    intro s
    show (applyOps (addE s p) t).length = s.length
    rw [ih (addE s p), length_addE]

theorem mem_applyOps (ops : List (Nat × Nat)) :
    ∀ (s : List (List Nat)) (x y : Nat),
      y ∈ (applyOps s ops).getD x [] ↔
        y ∈ s.getD x [] ∨ ((x, y) ∈ ops ∧ x < s.length) := by
  induction ops with
  | nil => intro s x y; simp [applyOps]
  | cons p t ih =>
    intro s x y
    have hstep : applyOps s (p :: t) = applyOps (addE s p) t := rfl
    rw [hstep, ih (addE s p) x y, getD_addE, length_addE]
    by_cases hx : x = p.1 ∧ p.1 < s.length
    · rw [if_pos hx, mem_add_excl]
      obtain ⟨hx1, hx2⟩ := hx
      subst hx1
      constructor
      · rintro ((h | rfl) | ⟨hm, hl⟩)
        · exact Or.inl h
        · exact Or.inr ⟨List.mem_cons_self _ _, hx2⟩
        · exact Or.inr ⟨List.mem_cons_of_mem _ hm, hl⟩
      · rintro (h | ⟨hm, hl⟩)
        · exact Or.inl (Or.inl h)
        · rcases List.mem_cons.1 hm with hm | hm
          · exact Or.inl (Or.inr (congrArg Prod.snd hm))
          · exact Or.inr ⟨hm, hl⟩
    · rw [if_neg hx]
      constructor
      · rintro (h | ⟨hm, hl⟩)
        · exact Or.inl h
        · exact Or.inr ⟨List.mem_cons_of_mem _ hm, hl⟩
      · rintro (h | ⟨hm, hl⟩)
        · exact Or.inl h
        · rcases List.mem_cons.1 hm with hm2 | hm2
          · have hfst : x = p.1 := congrArg Prod.fst hm2
            exact absurd ⟨hfst, hfst ▸ hl⟩ hx
          · exact Or.inr ⟨hm2, hl⟩

theorem symE_applyOps (s : List (List Nat)) (ops : List (Nat × Nat))
    (hsym : SymE s)
    (hswap : ∀ x y, (x, y) ∈ ops → (y, x) ∈ ops)
    (hbnd : ∀ x y, (x, y) ∈ ops → x < s.length ∧ y < s.length) :
    SymE (applyOps s ops) := by
  intro x y
  rw [mem_applyOps, mem_applyOps]
  constructor
  · rintro (h | ⟨hm, _⟩)
    · exact Or.inl ((hsym x y).1 h)
    · exact Or.inr ⟨hswap x y hm, (hbnd x y hm).2⟩
  · rintro (h | ⟨hm, _⟩)
    · exact Or.inl ((hsym x y).2 h)
    · exact Or.inr ⟨hswap y x hm, (hbnd y x hm).2⟩

theorem boundedE_applyOps (N : Nat) (s : List (List Nat))
    (ops : List (Nat × Nat)) (hb : BoundedE N s)
    (hops : ∀ x y, (x, y) ∈ ops → y < N) : BoundedE N (applyOps s ops) := by
  intro x y hy
  rcases (mem_applyOps ops s x y).1 hy with h | ⟨hm, _⟩
  · exact hb x y h
  · exact hops x y hm

theorem getD_replicate_nil (N x : Nat) :
    (List.replicate N ([] : List Nat)).getD x [] = [] := by
  by_cases hx : x < N
  · simp [List.getD_eq_getElem?_getD, List.getElem?_replicate, hx]
  · simp [List.getD_eq_getElem?_getD, List.getElem?_replicate, hx]

theorem symE_replicate_nil (N : Nat) : SymE (List.replicate N []) := by
  intro x y
  rw [getD_replicate_nil, getD_replicate_nil]
  simp

theorem boundedE_replicate_nil (N M : Nat) :
    BoundedE M (List.replicate N []) := by
  intro x y hy
  rw [getD_replicate_nil] at hy
  exact absurd hy (List.not_mem_nil y)

theorem countP_take_le (p : TAtom → Bool) (atoms : List TAtom) (i : Nat) :
    (atoms.take i).countP p ≤ atoms.countP p := by
  conv_rhs => rw [← List.take_append_drop i atoms]
  rw [List.countP_append]
  omega

theorem renum_lt (pol : Nat → Option ℚ) (atoms : List TAtom) (i : Nat)
    (h : i < atoms.length) :
    renum pol atoms i < atoms.length + nshells pol atoms := by
  have := countP_take_le (hasShell pol) atoms i
  unfold renum nshells
  omega

theorem countP_take_lt (pol : Nat → Option ℚ) (atoms : List TAtom) (i : Nat)
    (h : i < atoms.length)
    (hs : hasShell pol (atoms.getD i default) = true) :
    (atoms.take i).countP (hasShell pol) < nshells pol atoms := by
  have hget : atoms.getD i default = atoms[i] := by
    rw [List.getD_eq_getElem?_getD, List.getElem?_eq_getElem h]
    rfl
  rw [hget] at hs
  unfold nshells
  conv_rhs => rw [← List.take_append_drop i atoms]
  rw [List.countP_append, List.drop_eq_getElem_cons h, List.countP_cons, hs]
  simp

theorem renum_succ_lt (pol : Nat → Option ℚ) (atoms : List TAtom) (i : Nat)
    (h : i < atoms.length)
    (hs : hasShell pol (atoms.getD i default) = true) :
    renum pol atoms i + 1 < atoms.length + nshells pol atoms := by
  have := countP_take_lt pol atoms i h hs
  unfold renum
  omega

theorem mem_polList (pol : Nat → Option ℚ) (atoms : List TAtom) (t : PolParam) :
    t ∈ polList pol atoms ↔
      ∃ i, i < atoms.length ∧ ∃ p, pol ((atoms.getD i default).typ) = some p ∧
        t = ⟨renum pol atoms i, renum pol atoms i + 1, 0.001 * p⟩ := by
  unfold polList
  rw [List.mem_filterMap]
  constructor
  · rintro ⟨i, hi, hf⟩
    rw [List.mem_range] at hi
    refine ⟨i, hi, ?_⟩
    revert hf
    cases hpol : pol ((atoms.getD i default).typ) with
    | none => intro hf; simp at hf
    | some p =>
      intro hf
      simp only [Option.some.injEq] at hf
      exact ⟨p, rfl, hf.symm⟩
  · rintro ⟨i, hi, p, hp, rfl⟩
    exact ⟨i, List.mem_range.2 hi, by rw [hp]⟩

theorem s1ops_swap (pol : Nat → Option ℚ) (atoms : List TAtom) (x y : Nat)
    (h : (x, y) ∈ s1ops pol atoms) : (y, x) ∈ s1ops pol atoms := by
  rw [s1ops, List.mem_flatMap] at h ⊢
  obtain ⟨t, ht, hm⟩ := h
  refine ⟨t, ht, ?_⟩
  simp only [List.mem_cons, List.mem_singleton, Prod.mk.injEq,
    List.not_mem_nil, or_false] at hm ⊢
  tauto

theorem s1ops_bound (pol : Nat → Option ℚ) (atoms : List TAtom) (x y : Nat)
    (h : (x, y) ∈ s1ops pol atoms) :
    x < atoms.length + nshells pol atoms ∧
    y < atoms.length + nshells pol atoms := by
  rw [s1ops, List.mem_flatMap] at h
  obtain ⟨t, ht, hm⟩ := h
  rw [mem_polList] at ht
  obtain ⟨i, hi, p, hp, rfl⟩ := ht
  have h1 := renum_lt pol atoms i hi
  have hs : hasShell pol (atoms.getD i default) = true := by
    unfold hasShell
    rw [hp]
    rfl
  have h2 := renum_succ_lt pol atoms i hi hs
  simp only [List.mem_cons, List.mem_singleton, Prod.mk.injEq,
    List.not_mem_nil, or_false] at hm
  rcases hm with ⟨rfl, rfl⟩ | ⟨rfl, rfl⟩
  · exact ⟨h1, h2⟩
  · exact ⟨h2, h1⟩

theorem mem_s2ops (pol : Nat → Option ℚ) (atoms : List TAtom)
    (excls : List (List Nat)) (x y : Nat) :
    (x, y) ∈ s2ops pol atoms excls ↔
      ∃ i, i < atoms.length ∧
        ((∃ e ∈ excls.getD i [],
            x = renum pol atoms i ∧ y = renum pol atoms e) ∨
         (hasShell pol (atoms.getD i default) = true ∧
          ∃ e ∈ excls.getD i [],
            renum pol atoms i + 1 ≠ renum pol atoms e ∧
            ((x = renum pol atoms i + 1 ∧ y = renum pol atoms e) ∨
             (x = renum pol atoms e ∧ y = renum pol atoms i + 1)))) := by
  unfold s2ops
  rw [List.mem_flatMap]
  constructor
  · rintro ⟨i, hi, hm⟩
    rw [List.mem_range] at hi
    refine ⟨i, hi, ?_⟩
    rw [List.mem_append] at hm
    rcases hm with hm | hm
    · rw [List.mem_map] at hm
      obtain ⟨e, he, hpair⟩ := hm
      rw [Prod.mk.injEq] at hpair
      exact Or.inl ⟨e, he, hpair.1.symm, hpair.2.symm⟩
    · rw [List.mem_ite_nil_right] at hm
      obtain ⟨hsh, hm⟩ := hm
      rw [List.mem_flatMap] at hm
      obtain ⟨e, he, hm⟩ := hm
      rw [List.mem_ite_nil_right] at hm
      obtain ⟨hne, hm⟩ := hm
      simp only [List.mem_cons, List.mem_singleton, Prod.mk.injEq,
        List.not_mem_nil, or_false] at hm
      exact Or.inr ⟨hsh, e, he, hne, hm⟩
  · rintro ⟨i, hi, hm⟩
    refine ⟨i, List.mem_range.2 hi, ?_⟩
    rw [List.mem_append]
    rcases hm with ⟨e, he, hx, hy⟩ | ⟨hsh, e, he, hne, hm⟩
    · exact Or.inl (List.mem_map.2 ⟨e, he, by rw [Prod.mk.injEq]; exact ⟨hx.symm, hy.symm⟩⟩)
    · refine Or.inr (List.mem_ite_nil_right.2 ⟨hsh, ?_⟩)
      rw [List.mem_flatMap]
      refine ⟨e, he, List.mem_ite_nil_right.2 ⟨hne, ?_⟩⟩
      simp only [List.mem_cons, List.mem_singleton, Prod.mk.injEq,
        List.not_mem_nil, or_false]
      exact hm

theorem s2ops_swap (pol : Nat → Option ℚ) (atoms : List TAtom)
    (excls : List (List Nat))
    (hexsym : SymE excls)
    (hexbnd : ∀ i, ∀ e ∈ excls.getD i [], e < atoms.length)
    (x y : Nat) (h : (x, y) ∈ s2ops pol atoms excls) :
    (y, x) ∈ s2ops pol atoms excls := by
  rw [mem_s2ops] at h ⊢
  obtain ⟨i, hi, hm⟩ := h
  rcases hm with ⟨e, he, hx, hy⟩ | ⟨hsh, e, he, hne, hm⟩
  · have he' : e < atoms.length := hexbnd i e he
    have hie : i ∈ excls.getD e [] := (hexsym i e).1 he
    exact ⟨e, he', Or.inl ⟨i, hie, hy, hx⟩⟩
  · exact ⟨i, hi, Or.inr ⟨hsh, e, he, hne, by tauto⟩⟩

theorem s2ops_bound (pol : Nat → Option ℚ) (atoms : List TAtom)
    (excls : List (List Nat))
    (hexbnd : ∀ i, ∀ e ∈ excls.getD i [], e < atoms.length)
    (x y : Nat) (h : (x, y) ∈ s2ops pol atoms excls) :
    x < atoms.length + nshells pol atoms ∧
    y < atoms.length + nshells pol atoms := by
  rw [mem_s2ops] at h
  obtain ⟨i, hi, hm⟩ := h
  rcases hm with ⟨e, he, rfl, rfl⟩ | ⟨hsh, e, he, hne, hm⟩
  · exact ⟨renum_lt pol atoms i hi, renum_lt pol atoms e (hexbnd i e he)⟩
  · have h1 := renum_succ_lt pol atoms i hi hsh
    have h2 := renum_lt pol atoms e (hexbnd i e he)
    rcases hm with ⟨rfl, rfl⟩ | ⟨rfl, rfl⟩
    · exact ⟨h1, h2⟩
    · exact ⟨h2, h1⟩

theorem mem_s3ops (pol : Nat → Option ℚ) (atoms : List TAtom)
    (s : List (List Nat)) (i x y : Nat) :
    (x, y) ∈ s3ops pol atoms s i ↔
      ∃ e ∈ s.getD (renum pol atoms i) [],
        renum pol atoms i + 1 ≠ e ∧
        ((x = renum pol atoms i + 1 ∧ y = e) ∨
         (x = e ∧ y = renum pol atoms i + 1)) := by
  unfold s3ops
  rw [List.mem_flatMap]
  constructor
  · rintro ⟨e, he, hm⟩
    rw [List.mem_ite_nil_right] at hm
    obtain ⟨hne, hm⟩ := hm
    simp only [List.mem_cons, List.mem_singleton, Prod.mk.injEq,
      List.not_mem_nil, or_false] at hm
    exact ⟨e, he, hne, hm⟩
  · rintro ⟨e, he, hne, hm⟩
    refine ⟨e, he, List.mem_ite_nil_right.2 ⟨hne, ?_⟩⟩
    simp only [List.mem_cons, List.mem_singleton, Prod.mk.injEq,
      List.not_mem_nil, or_false]
    exact hm

theorem step3At_inv (pol : Nat → Option ℚ) (atoms : List TAtom) (N : Nat)
    (hN : N = atoms.length + nshells pol atoms)
    (s : List (List Nat)) (i : Nat) (hi : i < atoms.length)
    (hlen : s.length = N) (hsym : SymE s) (hbnd : BoundedE N s) :
    (step3At pol atoms s i).length = N ∧ SymE (step3At pol atoms s i) ∧
      BoundedE N (step3At pol atoms s i) := by
  unfold step3At
  by_cases hsh : hasShell pol (atoms.getD i default) = true
  · rw [if_pos hsh]
    have hswap : ∀ x y, (x, y) ∈ s3ops pol atoms s i →
        (y, x) ∈ s3ops pol atoms s i := by
      intro x y h
      rw [mem_s3ops] at h ⊢
      obtain ⟨e, he, hne, hm⟩ := h
      exact ⟨e, he, hne, by tauto⟩
    have hbnds : ∀ x y, (x, y) ∈ s3ops pol atoms s i → x < N ∧ y < N := by
      intro x y h
      rw [mem_s3ops] at h
      obtain ⟨e, he, hne, hm⟩ := h
      have h1 : renum pol atoms i + 1 < N := hN ▸ renum_succ_lt pol atoms i hi hsh
      have h2 : e < N := hbnd _ e he
      rcases hm with ⟨rfl, rfl⟩ | ⟨rfl, rfl⟩
      · exact ⟨h1, h2⟩
      · exact ⟨h2, h1⟩
    refine ⟨by rw [length_applyOps, hlen], ?_, ?_⟩
    · exact symE_applyOps s _ hsym hswap
        (fun x y h => by rw [hlen]; exact hbnds x y h)
    · exact boundedE_applyOps N s _ hbnd (fun x y h => (hbnds x y h).2)
  · rw [if_neg hsh]
    exact ⟨hlen, hsym, hbnd⟩

theorem step3_inv (pol : Nat → Option ℚ) (atoms : List TAtom) (N : Nat)
    (hN : N = atoms.length + nshells pol atoms) :
    ∀ (l : List Nat) (s : List (List Nat)), (∀ i ∈ l, i < atoms.length) →
      s.length = N → SymE s → BoundedE N s →
      (l.foldl (step3At pol atoms) s).length = N ∧
      SymE (l.foldl (step3At pol atoms) s) ∧
      BoundedE N (l.foldl (step3At pol atoms) s) := by
  intro l
  induction l with
  | nil => intro s _ h1 h2 h3; exact ⟨h1, h2, h3⟩
  | cons a t ih =>
    intro s hml h1 h2 h3
    have ha : a < atoms.length := hml a (List.mem_cons_self a t)
    obtain ⟨g1, g2, g3⟩ := step3At_inv pol atoms N hN s a ha h1 h2 h3
    exact ih (step3At pol atoms s a)
      (fun i hi => hml i (List.mem_cons_of_mem a hi)) g1 g2 g3

theorem mem_prune_excl (isSh : Nat → Bool) (s : List (List Nat)) (x y : Nat) :
    y ∈ (prune_excl isSh s).getD x [] ↔
      y ∈ s.getD x [] ∧ (isSh x = true ∨ isSh y = true) := by
  by_cases hx : x < s.length
  · rw [prune_excl, getD_prune_go isSh s 0 x hx, Nat.zero_add]
    by_cases hsx : isSh x = true
    · rw [if_pos hsx]
      exact ⟨fun h => ⟨h, Or.inl hsx⟩, fun h => h.1⟩
    · rw [if_neg hsx, mem_prune_one]
      constructor
      · rintro ⟨h1, h2⟩
        exact ⟨h1, Or.inr h2⟩
      · rintro ⟨h1, h2 | h2⟩
        · exact absurd h2 hsx
        · exact ⟨h1, h2⟩
  · have h1 : (prune_excl isSh s).getD x [] = [] := by
      rw [prune_excl, List.getD_eq_default]
      rw [length_prune_go]
      omega
    have h2 : s.getD x [] = [] := by
      rw [List.getD_eq_default]
      omega
    rw [h1, h2]
    simp

theorem symE_prune_excl (isSh : Nat → Bool) (s : List (List Nat))
    (hsym : SymE s) : SymE (prune_excl isSh s) := by
  intro x y
  rw [mem_prune_excl, mem_prune_excl]
  constructor
  · rintro ⟨h1, h2⟩
    exact ⟨(hsym x y).1 h1, h2.symm⟩
  · rintro ⟨h1, h2⟩
    exact ⟨(hsym x y).2 h1, h2.symm⟩

/-- C5: if the per-atom exclusion sets are symmetric before shell insertion
(and reference only existing atoms), then after the whole `AddShells`
exclusion rebuild — polarization pairs, inheritance to renumbered cores,
shell lifting, the core→shell closure pass and the final `prune_excl` pass —
the exclusion sets are still symmetric: `i` excludes `j` iff `j` excludes
`i` in the renumbered topology. -/
theorem C5_addShells_excls_symmetric (pol : Nat → Option ℚ) (atoms : List TAtom)
    (excls : List (List Nat)) (hexsym : SymE excls)
    (hexbnd : ∀ i, ∀ e ∈ excls.getD i [], e < atoms.length) :
    SymE (addShellsExcls pol atoms excls) := by
  unfold addShellsExcls
  by_cases hns : nshells pol atoms = 0
  · rw [if_pos hns]
    exact hexsym
  · rw [if_neg hns]
    have hlen1 : (applyOps (List.replicate (atoms.length + nshells pol atoms) [])
        (s1ops pol atoms)).length = atoms.length + nshells pol atoms := by
      rw [length_applyOps]
      exact List.length_replicate _ _
    have hsym1 : SymE (applyOps (List.replicate (atoms.length + nshells pol atoms) [])
        (s1ops pol atoms)) := by
      refine symE_applyOps _ _ (symE_replicate_nil _) (s1ops_swap pol atoms) ?_
      intro x y h
      rw [List.length_replicate]
      exact s1ops_bound pol atoms x y h
    have hbnd1 : BoundedE (atoms.length + nshells pol atoms)
        (applyOps (List.replicate (atoms.length + nshells pol atoms) [])
          (s1ops pol atoms)) :=
      boundedE_applyOps _ _ _ (boundedE_replicate_nil _ _)
        (fun x y h => (s1ops_bound pol atoms x y h).2)
    have hlen2 : (applyOps (applyOps
        (List.replicate (atoms.length + nshells pol atoms) []) (s1ops pol atoms))
        (s2ops pol atoms excls)).length = atoms.length + nshells pol atoms := by
      rw [length_applyOps, hlen1]
    have hsym2 : SymE (applyOps (applyOps
        (List.replicate (atoms.length + nshells pol atoms) []) (s1ops pol atoms))
        (s2ops pol atoms excls)) := by
      refine symE_applyOps _ _ hsym1 (s2ops_swap pol atoms excls hexsym hexbnd) ?_
      intro x y h
      rw [hlen1]
      exact s2ops_bound pol atoms excls hexbnd x y h
    have hbnd2 : BoundedE (atoms.length + nshells pol atoms)
        (applyOps (applyOps
          (List.replicate (atoms.length + nshells pol atoms) []) (s1ops pol atoms))
          (s2ops pol atoms excls)) :=
      boundedE_applyOps _ _ _ hbnd1
        (fun x y h => (s2ops_bound pol atoms excls hexbnd x y h).2)
    obtain ⟨_, hsym3, _⟩ := step3_inv pol atoms (atoms.length + nshells pol atoms)
      rfl (List.range atoms.length) _ (fun i hi => List.mem_range.1 hi)
      hlen2 hsym2 hbnd2
    exact symE_prune_excl _ _ hsym3

theorem getD_excls01 (x : Nat) :
    ([[1], [0]] : List (List Nat)).getD x [] =
      if x = 0 then [1] else if x = 1 then [0] else [] := by
  match x with
  | 0 => rfl
  | 1 => rfl
  | n + 2 => simp [List.getD_cons_succ, List.getD_nil]

theorem symE_excls01 : SymE [[1], [0]] := by
  intro x y
  rw [getD_excls01, getD_excls01]
  rcases Nat.lt_or_ge x 2 with hx | hx
  · rcases Nat.lt_or_ge y 2 with hy | hy
    · interval_cases x <;> interval_cases y <;> simp
    · have hy0 : ¬ (y = 0) := by omega
      have hy1 : ¬ (y = 1) := by omega
      interval_cases x <;> simp [hy0, hy1]
  · have hx0 : ¬ (x = 0) := by omega
    have hx1 : ¬ (x = 1) := by omega
    rcases Nat.lt_or_ge y 2 with hy | hy
    · interval_cases y <;> simp [hx0, hx1]
    · have hy0 : ¬ (y = 0) := by omega
      have hy1 : ¬ (y = 1) := by omega
      simp [hx0, hx1, hy0, hy1]

theorem bnd_excls01 : ∀ i, ∀ e ∈ ([[1], [0]] : List (List Nat)).getD i [], e < 2 := by
  intro i e he
  rw [getD_excls01] at he
  split_ifs at he <;> simp at he <;> omega

/-- Witness for C5: two mutually-excluding atoms, the first polarizable. -/
theorem C5_addShells_excls_symmetric_witness :
    SymE (addShellsExcls pdPol5 [atomQ1, ⟨0, 0, 1, 1, 1, 1, .atom⟩] [[1], [0]]) :=
  C5_addShells_excls_symmetric pdPol5 [atomQ1, ⟨0, 0, 1, 1, 1, 1, .atom⟩]
    [[1], [0]] symE_excls01 bnd_excls01

end Gromacs
